import Mathlib
/-!
Verification of the mediadevices repository core against its specification.

The Go source is shallowly embedded: each Go function the claims touch is
translated into an executable Lean definition over explicit state, and the
claims are settled as theorems about those definitions.  Opaque collaborators
(drivers, media properties, constraint sets, encoder factories) are type
parameters or oracle inputs, so the theorems quantify over every behaviour of
the collaborators.
-/

namespace MediaDevices

/-!
## Codec negotiation (CodecSelector.selectVideoCodec)

A local encoder builder is its advertised codec identity together with the
outcome of BuildVideoEncoder on the (fixed) raw-input reader and probed
property: either an encoded reader, modelled as a Nat handle, or an error
message.  The metaReader probe read is assumed successful (the failing probe
returns early before the negotiation loop), so the Go variable err is nil when
the loop starts; it is threaded explicitly below.
-/
structure Encoder where
  cname : String
  build : Except String Nat
/-- Inner loop of selectVideoCodec over the local encoder list for one wanted
codec name.  On a name match the encoder is built; a successful build breaks
out of both loops.  Every other iteration appends the pair
(encoder name, current value of err) to errReasons: in the source the append
sits after the name check, outside it, so it also runs for encoders whose
identity does not match, with whatever err currently holds. -/
def svcInner (err : Option String) (reasons : List (String × Option String))
    (wname : String) : List Encoder → (Nat × Encoder) ⊕ (Option String × List (String × Option String))
  | [] => Sum.inr (err, reasons)
  | e :: es =>
    if e.cname = wname then
      match e.build with
      | Except.ok r => Sum.inl (r, e)
      | Except.error msg => svcInner (some msg) (reasons ++ [(e.cname, some msg)]) wname es
    else
      svcInner err (reasons ++ [(e.cname, err)]) wname es
/-- Outer loop of selectVideoCodec over wantCodecs (remote preference order),
threading the err variable and errReasons across wanted identities. -/
def svcOuter (err : Option String) (reasons : List (String × Option String))
    (encoders : List Encoder) : List String → (Nat × Encoder) ⊕ List (String × Option String)
  | [] => Sum.inr reasons
  | w :: ws =>
    match svcInner err reasons w encoders with
    | Sum.inl x => Sum.inl x
    | Sum.inr er => svcOuter er.1 er.2 encoders ws
/-- CodecSelector.selectVideoCodec after a successful probe read: run the two
nested loops; if no build succeeded, fail with the accumulated errReasons
(the source joins them into one error string). -/
def selectVideoCodec (wantCodecs : List String) (encoders : List Encoder) :
    Except (List (String × Option String)) Nat :=
  match svcOuter none [] encoders wantCodecs with
  | Sum.inl x => Except.ok x.1
  | Sum.inr reasons => Except.error reasons
/-- Specification function, written from the spec words for claim C5: for one
wanted identity, attempt every local builder advertising that identity, in
order, and return the first successful build's reader. -/
def firstSuccessInner (wname : String) : List Encoder → Option Nat
  | [] => none
  | e :: es =>
    if e.cname = wname then
      match e.build with
      | Except.ok r => some r
      | Except.error _ => firstSuccessInner wname es
    else firstSuccessInner wname es
/-- Specification function for claim C5: iterate the wanted identities in
order and return the first wanted identity's first working local build. -/
def firstSuccess (encoders : List Encoder) : List String → Option Nat
  | [] => none
  | w :: ws =>
    match firstSuccessInner w encoders with
    | some r => some r
    | none => firstSuccess encoders ws
/-!
## Track lifetime (baseTrack.OnEnded, baseTrack.onError, bind and unbind)

The baseTrack fields touched by the claims are the latched error, the current
onErrorHandler, the endOnce guard and the activeTracks binding set.  Handlers
are opaque values of type H; invoking a handler is recorded by appending the
pair (handler, error) to a call log, so "the handler is invoked" is observable
in the final state.  All calls happen under the track mutex, so a lifetime is
a sequence of OnEnded and onError calls applied in order.
-/
inductive TEvent (E H : Type) where
  | onEnded (h : Option H)
  | onError (e : E)
structure TState (E H : Type) where
  err : Option E
  onErrorHandler : Option H
  fired : Bool
  activeTracks : List Nat
  calls : List (H × E)
def initTrack (E H : Type) : TState E H :=
  ⟨none, none, false, [], []⟩
/-- endOnce.Do with the body handler(e): runs the body and consumes the guard
only when the guard has not fired yet. -/
def fireOnce (st : TState E H) (h : H) (e : E) : TState E H :=
  if st.fired then st else { st with fired := true, calls := st.calls ++ [(h, e)] }
/-- Case split of baseTrack.OnEnded on the latched error and the new handler:
the handler is stored first, then when an error is already latched and the new
handler is non-nil the handler runs through the one-shot guard. -/
def onEndedCore (st : TState E H) : Option E → Option H → TState E H
  | some e, some hh => fireOnce { st with onErrorHandler := some hh } hh e
  | none, h => { st with onErrorHandler := h }
  | some _, none => { st with onErrorHandler := none }
/-- baseTrack.OnEnded. -/
def OnEnded (st : TState E H) (h : Option H) : TState E H :=
  onEndedCore st st.err h
/-- Case split of baseTrack.onError on the currently registered handler: the
latched error is overwritten unconditionally, then a registered handler runs
through the one-shot guard with the incoming error. -/
def onErrorCore (st : TState E H) (e : E) : Option H → TState E H
  | some hh => fireOnce { st with err := some e } hh e
  | none => { st with err := some e }
/-- baseTrack.onError. -/
def onError (st : TState E H) (e : E) : TState E H :=
  onErrorCore st e st.onErrorHandler
def trackStep (st : TState E H) : TEvent E H → TState E H
  | TEvent.onEnded h => OnEnded st h
  | TEvent.onError e => onError st e
/-- A track lifetime: the calls applied in order starting from a fresh track. -/
def runTrack (t : List (TEvent E H)) : TState E H :=
  t.foldl trackStep (initTrack E H)
/-- Specification function for the amended claim C3: the error stored after a
lifetime is the error of the most recent onError call, if any. -/
def lastErr (t : List (TEvent E H)) : Option E :=
  t.foldl (fun a ev => match ev with
    | TEvent.onError e => some e
    | TEvent.onEnded _ => a) none
/-!
## Bind and Unbind (baseTrack.bind, baseTrack.unbind, VideoTrack.Bind)

In the source the registering body of baseTrack.bind is commented out: both
bind and unbind take the track mutex and return nil without touching any
state.  VideoTrack.Bind runs codec negotiation and likewise never modifies the
activeTracks set.
-/
/-- baseTrack.bind: lock, do nothing (the binding body is a comment), unlock,
return nil. -/
def baseTrack.bind (st : TState E H) (_x : Nat) : TState E H × Option String :=
  (st, none)
/-- baseTrack.unbind: lock, do nothing, unlock, return nil. -/
def baseTrack.unbind (st : TState E H) (_x : Nat) : TState E H × Option String :=
  (st, none)
/-- VideoTrack.Bind: negotiate a codec against the registered wanted codecs;
on failure return the aggregate error, on success return nil.  In either case
the track state, in particular activeTracks, is unchanged. -/
def VideoTrack.Bind (st : TState E H) (wantCodecs : List String)
    (encoders : List Encoder) : TState E H × Option (List (String × Option String)) :=
  match selectVideoCodec wantCodecs encoders with
  | Except.error rs => (st, some rs)
  | Except.ok _ => (st, none)
/-!
## Driver selection (queryDriverProperties, selectBestDriver)

A driver is its identity, static priority, open status (status = true models
driver.StateRunning or any non-closed state; status = false models
driver.StateClosed), whether Open() would succeed, and its reported media
property list.  Media properties and the constraint set are opaque type
parameters; FitnessDistance is an oracle returning none when a required
constraint attribute is not satisfied (the ok = false case in the source) and
some distance otherwise.  The mutable registry is the list of driver records,
updated in place by id.
-/
structure Drv (α : Type) where
  did : Nat
  priority : ℚ
  status : Bool
  openOk : Bool
  props : List α
deriving DecidableEq
/-- First loop of queryDriverProperties: for every driver in query order, a
closed driver is transiently opened (skipped entirely when Open fails) and
remembered in needToClose; each successfully queried driver contributes its
property list to the result map.  Returns the updated driver states, the
queried (driver, properties) pairs in iteration order, and needToClose. -/
def queryPass1 : List (Drv α) → List (Drv α) × List (Drv α × List α) × List Nat
  | [] => ([], [], [])
  | d :: ds =>
    let rest := queryPass1 ds
    if d.status = false then
      if d.openOk then
        ({ d with status := true } :: rest.1,
          ({ d with status := true }, d.props) :: rest.2.1,
          d.did :: rest.2.2)
      else (d :: rest.1, rest.2.1, rest.2.2)
    else (d :: rest.1, (d, d.props) :: rest.2.1, rest.2.2)
/-- d.Close() on the registry, addressed by driver identity. -/
def closeById (ds : List (Drv α)) (i : Nat) : List (Drv α) :=
  ds.map (fun d => if d.did = i then { d with status := false } else d)
/-- Second loop of queryDriverProperties: close every driver in needToClose. -/
def closeAll (ds : List (Drv α)) : List Nat → List (Drv α)
  | [] => ds
  | i :: is => closeAll (closeById ds i) is
/-- queryDriverProperties: the queried (driver, properties) map together with
the final registry state after the transient opens have been closed again. -/
def queryDriverProperties (ds : List (Drv α)) : List (Drv α × List α) × List (Drv α) :=
  let r := queryPass1 ds
  (r.2.1, closeAll r.1 r.2.2)
/-- Body of the selection loop for a single property p of driver d: skip the
pair when FitnessDistance reports a violated required constraint, otherwise
subtract the driver priority and replace the running best on strict
less-than. -/
def selStep (fitness : γ → α → Option ℚ) (c : γ) (d : Drv α)
    (acc : Option (Drv α × α × ℚ)) (p : α) : Option (Drv α × α × ℚ) :=
  match fitness c p with
  | none => acc
  | some fd =>
    match acc with
    | none => some (d, p, fd - d.priority)
    | some b => if fd - d.priority < b.2.2 then some (d, p, fd - d.priority) else some b
/-- The nested loops of selectBestDriver over the queried map, tracking the
best (driver, property, effective score) seen so far; the initial none plays
the role of the initial bestDriver = nil with minFitnessDist = +infinity. -/
def selectLoop (fitness : γ → α → Option ℚ) (c : γ)
    (entries : List (Drv α × List α)) : Option (Drv α × α × ℚ) :=
  entries.foldl (fun acc e => e.2.foldl (selStep fitness c e.1) acc) none
/-- The foundProperties dump built on the failure path: every property of
every queried driver, in iteration order. -/
def foundProperties (entries : List (Drv α × List α)) : List α :=
  entries.flatMap (fun e => e.2)
/-- selectBestDriver: query the drivers, run the selection loop, and either
return the best (driver, property) pair or fail with the NotFound error
carrying every discovered property and the original constraint set. -/
def selectBestDriver (fitness : γ → α → Option ℚ) (c : γ) (ds : List (Drv α)) :
    Except (List α × γ) (Drv α × α) :=
  match selectLoop fitness c (queryDriverProperties ds).1 with
  | none => Except.error (foundProperties (queryDriverProperties ds).1, c)
  | some b => Except.ok (b.1, b.2.1)
/-- The eligible (driver, property, effective score) triples of a queried map,
in the encounter order of the nested loops: pairs whose FitnessDistance is
defined, scored as distance minus driver priority. -/
def candidates (fitness : γ → α → Option ℚ) (c : γ)
    (entries : List (Drv α × List α)) : List (Drv α × α × ℚ) :=
  entries.flatMap (fun e =>
    e.2.filterMap (fun p => (fitness c p).map (fun fd => (e.1, p, fd - e.1.priority))))
/-- Generic running minimum with strict less-than replacement, the abstract
shape of the selection loop. -/
def runMin (f : β → ℚ) (acc : Option β) (l : List β) : Option β :=
  l.foldl (fun a x => match a with
    | none => some x
    | some b => if f x < f b then some x else some b) acc
/-!
## Output binder drain loop (RTPTrack.wrapVideoTrack goroutine)

Each iteration reads from the encoded reader into the current buffer.  A read
is scripted as one of: a successful read of n bytes followed by the sample
sink call (which may itself fail), the recoverable InsufficientBufferError
carrying the required size, or any other read error.  The loop state is the
current buffer length plus the track state that onError mutates; the source
starts with a 1024-byte buffer and replaces it by one of length
2 * RequiredSize on the recoverable error.
-/
inductive RStep (E : Type) where
  | ok (n : Nat) (sampleErr : Option E)
  | tooSmall (required : Nat)
  | fail (e : E)
/-- Is this scripted step one the drain loop survives without touching the
track's error latch (a successful read whose sample call succeeds, or the
recoverable buffer-too-small error)? -/
def benign : RStep E → Bool
  | RStep.ok _ none => true
  | RStep.ok _ (some _) => false
  | RStep.tooSmall _ => true
  | RStep.fail _ => false
/-- The drain loop over a script of read outcomes: buffer-too-small replaces
the buffer by one of length twice the required size and retries; any other
read error, and any sample error, is forwarded to the track's error latch
(baseTrack.onError) and terminates the loop.  Returns the final buffer length
and track state when the script is exhausted or the loop returns. -/
def drainLoop (b : Nat) (st : TState E H) : List (RStep E) → Nat × TState E H
  | [] => (b, st)
  | RStep.ok _ se :: rest =>
    match se with
    | some e => (b, onError st e)
    | none => drainLoop b st rest
  | RStep.tooSmall r :: rest => drainLoop (2 * r) st rest
  | RStep.fail e :: _ => (b, onError st e)
/-!
## GetUserMedia and GetDisplayMedia cleanup

The selector calls (selectVideo, selectAudio, selectScreen) and the
NewMediaStream construction are oracles: each either produces a track (an
opaque T) or fails.  The embedding records, alongside the result, the trackers
list built so far (the tracks created by the call) and the list of tracks Close
was called on (cleanTrackers closes every tracker accumulated so far on each
failure path).
-/
structure GumEnv (T S Err : Type) where
  videoEnabled : Bool
  audioEnabled : Bool
  videoResult : Except Err T
  audioResult : Except Err T
  streamResult : List T → Except Err S
structure MediaOutcome (T S Err : Type) where
  result : Except Err S
  created : List T
  closed : List T
/-- mediaDevices.GetUserMedia: select video when enabled, then audio when
enabled, then build the stream; on any failure close every tracker created so
far and return the error. -/
def GetUserMedia (env : GumEnv T S Err) : MediaOutcome T S Err :=
  if env.videoEnabled then
    match env.videoResult with
    | Except.error e => ⟨Except.error e, [], []⟩
    | Except.ok tv =>
      if env.audioEnabled then
        match env.audioResult with
        | Except.error e => ⟨Except.error e, [tv], [tv]⟩
        | Except.ok ta =>
          match env.streamResult [tv, ta] with
          | Except.error e => ⟨Except.error e, [tv, ta], [tv, ta]⟩
          | Except.ok s => ⟨Except.ok s, [tv, ta], []⟩
      else
        match env.streamResult [tv] with
        | Except.error e => ⟨Except.error e, [tv], [tv]⟩
        | Except.ok s => ⟨Except.ok s, [tv], []⟩
  else
    if env.audioEnabled then
      match env.audioResult with
      | Except.error e => ⟨Except.error e, [], []⟩
      | Except.ok ta =>
        match env.streamResult [ta] with
        | Except.error e => ⟨Except.error e, [ta], [ta]⟩
        | Except.ok s => ⟨Except.ok s, [ta], []⟩
    else
      match env.streamResult [] with
      | Except.error e => ⟨Except.error e, [], []⟩
      | Except.ok s => ⟨Except.ok s, [], []⟩
/-- mediaDevices.GetDisplayMedia: like GetUserMedia but only the screen/video
selector runs. -/
def GetDisplayMedia (env : GumEnv T S Err) : MediaOutcome T S Err :=
  if env.videoEnabled then
    match env.videoResult with
    | Except.error e => ⟨Except.error e, [], []⟩
    | Except.ok tv =>
      match env.streamResult [tv] with
      | Except.error e => ⟨Except.error e, [tv], [tv]⟩
      | Except.ok s => ⟨Except.ok s, [tv], []⟩
  else
    match env.streamResult [] with
    | Except.error e => ⟨Except.error e, [], []⟩
    | Except.ok s => ⟨Except.ok s, [], []⟩

lemma svcInner_spec (wname : String) :
    ∀ (es : List Encoder) (err : Option String) (reasons : List (String × Option String)),
      (∀ x, svcInner err reasons wname es = Sum.inl x → firstSuccessInner wname es = some x.1) ∧
      (∀ er, svcInner err reasons wname es = Sum.inr er → firstSuccessInner wname es = none) := by
  intro es
  induction es with
  | nil =>
    intro err reasons
    constructor
    · intro x hx; simp [svcInner] at hx
    · intro er _; rfl
  | cons e es ih =>
    intro err reasons
    constructor
    · intro x hx
      by_cases hname : e.cname = wname
      · cases hb : e.build with
        | ok r =>
          simp [svcInner, hname, hb] at hx
          simp [firstSuccessInner, hname, hb, ← hx]
        | error msg =>
          simp only [svcInner, if_pos hname, hb] at hx
          have := (ih (some msg) (reasons ++ [(e.cname, some msg)])).1 x hx
          simp [firstSuccessInner, hname, hb, this]
      · simp only [svcInner, if_neg hname] at hx
        have := (ih err (reasons ++ [(e.cname, err)])).1 x hx
        simp [firstSuccessInner, hname, this]
    · intro er her
      by_cases hname : e.cname = wname
      · cases hb : e.build with
        | ok r => simp [svcInner, hname, hb] at her
        | error msg =>
          simp only [svcInner, if_pos hname, hb] at her
          have := (ih (some msg) (reasons ++ [(e.cname, some msg)])).2 er her
          simp [firstSuccessInner, hname, hb, this]
      · simp only [svcInner, if_neg hname] at her
        have := (ih err (reasons ++ [(e.cname, err)])).2 er her
        simp [firstSuccessInner, hname, this]
lemma svcOuter_spec (encoders : List Encoder) :
    ∀ (ws : List String) (err : Option String) (reasons : List (String × Option String)),
      (∀ x, svcOuter err reasons encoders ws = Sum.inl x → firstSuccess encoders ws = some x.1) ∧
      (∀ rs, svcOuter err reasons encoders ws = Sum.inr rs → firstSuccess encoders ws = none) := by
  intro ws
  induction ws with
  | nil =>
    intro err reasons
    constructor
    · intro x hx; simp [svcOuter] at hx
    · intro rs _; rfl
  | cons w ws ih =>
    intro err reasons
    constructor
    · intro x hx
      cases hi : svcInner err reasons w encoders with
      | inl y =>
        simp only [svcOuter, hi] at hx
        have h1 := (svcInner_spec w encoders err reasons).1 y hi
        cases hx
        simp [firstSuccess, h1]
      | inr er =>
        simp only [svcOuter, hi] at hx
        have h1 := (svcInner_spec w encoders err reasons).2 er hi
        have h2 := (ih er.1 er.2).1 x hx
        simp [firstSuccess, h1, h2]
    · intro rs hrs
      cases hi : svcInner err reasons w encoders with
      | inl y => simp [svcOuter, hi] at hrs
      | inr er =>
        simp only [svcOuter, hi] at hrs
        have h1 := (svcInner_spec w encoders err reasons).2 er hi
        have h2 := (ih er.1 er.2).2 rs hrs
        simp [firstSuccess, h1, h2]
/-- Claim C5: codec negotiation iterates the wanted identities in order, for
each identity attempts every local builder advertising that identity, and
returns the first successful build's encoded reader, terminating iteration
there; a wanted identity with no working local builder is skipped in favour of
a later wanted identity that has one.  Formally, selectVideoCodec succeeds
with reader r exactly when the first-success-in-wanted-order specification
function produces r. -/
theorem selectVideoCodec_ok_iff_firstSuccess (wantCodecs : List String)
    (encoders : List Encoder) (r : Nat) :
    selectVideoCodec wantCodecs encoders = Except.ok r ↔
      firstSuccess encoders wantCodecs = some r := by
  unfold selectVideoCodec
  cases ho : svcOuter none [] encoders wantCodecs with
  | inl x =>
    have h1 := (svcOuter_spec encoders wantCodecs none []).1 x ho
    simp only []
    constructor
    · intro hok
      cases hok
      exact h1
    · intro hf
      rw [h1] at hf
      cases hf
      rfl
  | inr rs =>
    have h1 := (svcOuter_spec encoders wantCodecs none []).2 rs ho
    simp only []
    constructor
    · intro hok; cases hok
    · intro hf; rw [h1] at hf; cases hf
/-- Claim C6 (code bug): on exhaustion the aggregate error is supposed to pair
exactly the attempted codec builds with their failure reasons, but the append
in the source sits outside the name-match check, so a reason entry is also
recorded for every encoder whose identity was never attempted, carrying the
stale or nil current err.  Concretely, with wanted list [VP8] and local
builders H264 (fails with h264err) and VP8 (fails with vp8err), only VP8 is
ever attempted, yet the error records the entry (H264, nil) as well. -/
theorem selectVideoCodec_records_stale_reasons :
    selectVideoCodec ["VP8"]
        [⟨"H264", Except.error "h264err"⟩, ⟨"VP8", Except.error "vp8err"⟩]
      = Except.error [("H264", none), ("VP8", some "vp8err")] := by
  rfl
lemma fireOnce_err (st : TState E H) (h : H) (e : E) :
    (fireOnce st h e).err = st.err := by
  unfold fireOnce; split <;> rfl
lemma trackStep_shape (st : TState E H) (ev : TEvent E H) :
    ((trackStep st ev).calls = st.calls ∧ (trackStep st ev).fired = st.fired) ∨
      (st.fired = false ∧ (trackStep st ev).fired = true ∧
        ∃ p, (trackStep st ev).calls = st.calls ++ [p]) := by
  cases ev with
  | onEnded h =>
    cases herr : st.err with
    | none => left; cases h <;> simp [trackStep, OnEnded, herr, onEndedCore]
    | some e =>
      cases h with
      | none => left; simp [trackStep, OnEnded, herr, onEndedCore]
      | some hh =>
        cases hf : st.fired with
        | false =>
          right
          refine ⟨rfl, ?_, ⟨(hh, e), ?_⟩⟩ <;>
            simp [trackStep, OnEnded, herr, onEndedCore, fireOnce, hf]
        | true => left; simp [trackStep, OnEnded, herr, onEndedCore, fireOnce, hf]
  | onError e =>
    cases hh : st.onErrorHandler with
    | none => left; simp [trackStep, onError, hh, onErrorCore]
    | some h =>
      cases hf : st.fired with
      | false =>
        right
        refine ⟨rfl, ?_, ⟨(h, e), ?_⟩⟩ <;>
          simp [trackStep, onError, hh, onErrorCore, fireOnce, hf]
      | true => left; simp [trackStep, onError, hh, onErrorCore, fireOnce, hf]
lemma foldl_fired_frozen (t : List (TEvent E H)) :
    ∀ st : TState E H, st.fired = true →
      (t.foldl trackStep st).calls = st.calls ∧ (t.foldl trackStep st).fired = true := by
  induction t with
  | nil => intro st h; exact ⟨rfl, h⟩
  | cons ev t ih =>
    intro st h
    rcases trackStep_shape st ev with ⟨hc, hf⟩ | ⟨hf, _, _⟩
    · have := ih (trackStep st ev) (hf.trans h)
      simpa [List.foldl_cons, hc] using this
    · rw [h] at hf; cases hf
lemma foldl_calls_invariant (t : List (TEvent E H)) :
    ∀ st : TState E H, (st.fired = false → st.calls = []) → st.calls.length ≤ 1 →
      (t.foldl trackStep st).calls.length ≤ 1 := by
  induction t with
  | nil => intro st _ h2; exact h2
  | cons ev t ih =>
    intro st h1 h2
    rcases trackStep_shape st ev with ⟨hc, hf⟩ | ⟨hf, hf2, p, hc⟩
    · exact ih (trackStep st ev) (by rw [hc, hf]; exact h1) (by rw [hc]; exact h2)
    · have hnil := h1 hf
      have := (foldl_fired_frozen t (trackStep st ev) hf2).1
      rw [List.foldl_cons, this, hc, hnil]
      simp
/-- Claim C2: over a whole track lifetime the registered OnEnded handler is
invoked at most once in total, and once the one-shot guard has fired every
later event (in particular every later OnEnded registration, which still
succeeds) leaves the call log unchanged, so no later registration is ever
invoked.  The guard fires exactly at one of the two claimed points: when an
error is already latched and the guard is unfired, the next registration of a
non-nil handler invokes that handler immediately with the latched error; and
when a handler is registered and the guard is unfired, an arriving terminal
error invokes the current handler. -/
theorem OnEnded_fires_at_most_once (t t2 : List (TEvent E H)) (e : E) (h : H) :
    (runTrack t).calls.length ≤ 1 ∧
      ((runTrack t).fired = true → (runTrack (t ++ t2)).calls = (runTrack t).calls) ∧
      ((runTrack t).err = some e → (runTrack t).fired = false →
        (runTrack (t ++ [TEvent.onEnded (some h)])).calls
          = (runTrack t).calls ++ [(h, e)]) ∧
      ((runTrack t).onErrorHandler = some h → (runTrack t).fired = false →
        (runTrack (t ++ [TEvent.onError e])).calls
          = (runTrack t).calls ++ [(h, e)]) := by
  refine ⟨?_, ?_, ?_, ?_⟩
  · exact foldl_calls_invariant t (initTrack E H) (fun _ => rfl) (by simp [initTrack])
  · intro hf
    have := foldl_fired_frozen t2 (runTrack t) hf
    rw [runTrack, List.foldl_append]
    exact this.1
  · intro herr hfired
    have hrw : runTrack (t ++ [TEvent.onEnded (some h)])
        = trackStep (runTrack t) (TEvent.onEnded (some h)) := by
      rw [runTrack, List.foldl_append]
      rfl
    rw [hrw]
    show (OnEnded (runTrack t) (some h)).calls = _
    rw [OnEnded, herr]
    simp [onEndedCore, fireOnce, hfired]
  · intro hh hfired
    have hrw : runTrack (t ++ [TEvent.onError e])
        = trackStep (runTrack t) (TEvent.onError e) := by
      rw [runTrack, List.foldl_append]
      rfl
    rw [hrw]
    show (onError (runTrack t) e).calls = _
    rw [onError, hh]
    simp [onErrorCore, fireOnce, hfired]

/-- Witness for C2 at concrete lifetimes: an error then a first registration
fires once and a later registration adds nothing; registration after an error
fires immediately; an error arriving with a handler registered fires it. -/
theorem OnEnded_fires_at_most_once_witness :
    (runTrack ([TEvent.onError 0, TEvent.onEnded (some 7)] : List (TEvent Nat Nat))).calls.length ≤ 1 ∧
      (runTrack (([TEvent.onError 0, TEvent.onEnded (some 7)] : List (TEvent Nat Nat)) ++
          [TEvent.onEnded (some 8)])).calls
        = (runTrack ([TEvent.onError 0, TEvent.onEnded (some 7)] : List (TEvent Nat Nat))).calls ∧
      (runTrack (([TEvent.onError 0] : List (TEvent Nat Nat)) ++ [TEvent.onEnded (some 7)])).calls
        = (runTrack ([TEvent.onError 0] : List (TEvent Nat Nat))).calls ++ [(7, 0)] ∧
      (runTrack (([TEvent.onEnded (some 7)] : List (TEvent Nat Nat)) ++ [TEvent.onError 0])).calls
        = (runTrack ([TEvent.onEnded (some 7)] : List (TEvent Nat Nat))).calls ++ [(7, 0)] :=
  ⟨(OnEnded_fires_at_most_once ([TEvent.onError 0, TEvent.onEnded (some 7)] : List (TEvent Nat Nat))
      [TEvent.onEnded (some 8)] 0 7).1,
    (OnEnded_fires_at_most_once ([TEvent.onError 0, TEvent.onEnded (some 7)] : List (TEvent Nat Nat))
      [TEvent.onEnded (some 8)] 0 7).2.1 (by decide),
    (OnEnded_fires_at_most_once ([TEvent.onError 0] : List (TEvent Nat Nat)) [] 0 7).2.2.1
      (by decide) (by decide),
    (OnEnded_fires_at_most_once ([TEvent.onEnded (some 7)] : List (TEvent Nat Nat)) [] 0 7).2.2.2
      (by decide) (by decide)⟩

/-- Counterexample to claim C3: the latch is not write-once.  After a first
error 1 and a second error 2 the stored error is 2, not the first error 1. -/
theorem onError_overwrites_latched_err :
    (runTrack ([TEvent.onError 1, TEvent.onError 2] : List (TEvent Nat Nat))).err = some 2 ∧
      (runTrack ([TEvent.onError 1, TEvent.onError 2] : List (TEvent Nat Nat))).err ≠ some 1 := by
  exact ⟨rfl, by decide⟩
lemma OnEnded_err (st : TState E H) (h : Option H) :
    (OnEnded st h).err = st.err := by
  cases herr : st.err <;> cases h <;>
    simp [OnEnded, herr, onEndedCore, fireOnce_err]
lemma onError_err (st : TState E H) (e : E) :
    (onError st e).err = some e := by
  cases hh : st.onErrorHandler <;>
    simp [onError, hh, onErrorCore, fireOnce_err]
lemma foldl_err_lastErr (t : List (TEvent E H)) :
    ∀ (st : TState E H),
      (t.foldl trackStep st).err = t.foldl (fun a ev => match ev with
        | TEvent.onError e => some e
        | TEvent.onEnded _ => a) st.err := by
  induction t with
  | nil => intro st; rfl
  | cons ev t ih =>
    intro st
    rw [List.foldl_cons, List.foldl_cons, ih]
    congr 1
    cases ev with
    | onEnded h => exact OnEnded_err st h
    | onError e => exact onError_err st e
/-- Claim C3 amended: the stored error is overwritten by every failing call,
so after any lifetime it equals the most recent error, not the first one; only
the handler invocation is one-shot. -/
theorem runTrack_err_eq_lastErr (t : List (TEvent E H)) :
    (runTrack t).err = lastErr t :=
  foldl_err_lastErr t (initTrack E H)
/-- Counterexample to claim C9: a successful bind of destination 5 on a fresh
track succeeds yet does not add 5 to the active-bindings set. -/
theorem bind_does_not_add_binding :
    (baseTrack.bind (initTrack Nat Nat) 5).2 = none ∧
      (baseTrack.bind (initTrack Nat Nat) 5).1.activeTracks = [] := by
  exact ⟨rfl, rfl⟩
/-- Claim C9 amended: Bind and Unbind succeed but leave the active-bindings
set unchanged, because the registering body is commented out in the source; in
particular unbinding an absent destination is a no-op that succeeds. -/
theorem bind_unbind_leave_bindings_unchanged (st : TState E H) (d : Nat)
    (w : List String) (encs : List Encoder) :
    baseTrack.bind st d = (st, none) ∧ baseTrack.unbind st d = (st, none) ∧
      (VideoTrack.Bind st w encs).1 = st := by
  refine ⟨rfl, rfl, ?_⟩
  unfold VideoTrack.Bind
  cases selectVideoCodec w encs <;> rfl
lemma queryPass1_ids (ds : List (Drv α)) :
    (queryPass1 ds).1.map Drv.did = ds.map Drv.did := by
  induction ds with
  | nil => rfl
  | cons d ds ih =>
    by_cases hs : d.status = false
    · by_cases ho : d.openOk <;> simp [queryPass1, hs, ho, ih]
    · simp [queryPass1, hs, ih]
lemma queryPass1_ntc_sub (ds : List (Drv α)) :
    ∀ i ∈ (queryPass1 ds).2.2, i ∈ ds.map Drv.did := by
  induction ds with
  | nil => intro i hi; simp [queryPass1] at hi
  | cons d ds ih =>
    intro i hi
    by_cases hs : d.status = false
    · by_cases ho : d.openOk
      · simp only [queryPass1, hs, ho, if_true, if_pos] at hi
        simp only [List.mem_cons] at hi
        rcases hi with hi | hi
        · simp [hi]
        · simp [ih i hi]
      · simp only [queryPass1, hs, ho, if_pos, if_neg, Bool.false_eq_true] at hi
        simp [ih i hi]
    · simp only [queryPass1, hs, if_neg] at hi
      simp [ih i hi]
lemma closeById_eq_self (ds : List (Drv α)) (i : Nat)
    (h : ∀ x ∈ ds, ¬ x.did = i) : closeById ds i = ds := by
  induction ds with
  | nil => rfl
  | cons d ds ih =>
    have hd := h d (by simp)
    simp only [closeById, List.map_cons, if_neg hd]
    have := ih (fun x hx => h x (by simp [hx]))
    simp only [closeById] at this
    rw [this]
lemma closeAll_cons (is : List Nat) :
    ∀ (d : Drv α) (ds : List (Drv α)), d.did ∉ is →
      closeAll (d :: ds) is = d :: closeAll ds is := by
  induction is with
  | nil => intro d ds _; rfl
  | cons i is ih =>
    intro d ds hd
    have hne : ¬ d.did = i := by intro h; exact hd (by simp [h])
    have : closeById (d :: ds) i = d :: closeById ds i := by
      simp [closeById, if_neg hne]
    rw [closeAll, this, ih d (closeById ds i) (fun h => hd (by simp [h])), closeAll]
/-- Claim C4: every driver queried during selection ends the call in the
open/closed state it started in: a driver opened only for property enumeration
is closed again before returning, and a driver already open is left open (and
one that stays closed stays closed), so the final registry equals the initial
one. -/
theorem queryDriverProperties_preserves_state (ds : List (Drv α))
    (hnodup : (ds.map Drv.did).Nodup) :
    (queryDriverProperties ds).2 = ds := by
  induction ds with
  | nil => rfl
  | cons d ds ih =>
    have hnotin : d.did ∉ ds.map Drv.did := by
      simp only [List.map_cons, List.nodup_cons] at hnodup
      exact hnodup.1
    have hnodup2 : (ds.map Drv.did).Nodup := by
      simp only [List.map_cons, List.nodup_cons] at hnodup
      exact hnodup.2
    have hntc : d.did ∉ (queryPass1 ds).2.2 :=
      fun h => hnotin (queryPass1_ntc_sub ds d.did h)
    have htail := ih hnodup2
    simp only [queryDriverProperties] at htail ⊢
    cases hst : d.status with
    | false =>
      by_cases ho : d.openOk
      · have hq : queryPass1 (d :: ds) =
            ({ d with status := true } :: (queryPass1 ds).1,
              ({ d with status := true }, d.props) :: (queryPass1 ds).2.1,
              d.did :: (queryPass1 ds).2.2) := by
          simp [queryPass1, hst, ho]
        rw [hq]
        have hid1 : ∀ x ∈ (queryPass1 ds).1, ¬ x.did = d.did := by
          intro x hx hxid
          exact hnotin (by
            rw [← queryPass1_ids ds]
            exact List.mem_map.mpr ⟨x, hx, hxid⟩)
        have hhead : closeById ({ d with status := true } :: (queryPass1 ds).1) d.did
            = { d with status := false } :: (queryPass1 ds).1 := by
          simp only [closeById, List.map_cons, if_pos rfl]
          congr 1
          exact closeById_eq_self (queryPass1 ds).1 d.did hid1
        have hd2 : ({ d with status := false } : Drv α) = d := by
          cases d with
          | mk did pr st ok props =>
            simp only [] at hst
            rw [hst]
        rw [closeAll, hhead, hd2, closeAll_cons _ d _ hntc, htail]
      · have hq : queryPass1 (d :: ds) =
            (d :: (queryPass1 ds).1, (queryPass1 ds).2.1, (queryPass1 ds).2.2) := by
          simp [queryPass1, hst, ho]
        rw [hq, closeAll_cons _ d _ hntc, htail]
    | true =>
      have hq : queryPass1 (d :: ds) =
          (d :: (queryPass1 ds).1, (d, d.props) :: (queryPass1 ds).2.1,
            (queryPass1 ds).2.2) := by
        simp [queryPass1, hst]
      rw [hq, closeAll_cons _ d _ hntc, htail]
/-- Witness for C4 with one already-open driver and one closed driver. -/
theorem queryDriverProperties_preserves_state_witness :
    (List.map Drv.did
        [(⟨1, 0, true, true, [10]⟩ : Drv Nat), (⟨2, 0, false, true, [20]⟩ : Drv Nat)]).Nodup ∧
      (queryDriverProperties
          [(⟨1, 0, true, true, [10]⟩ : Drv Nat), (⟨2, 0, false, true, [20]⟩ : Drv Nat)]).2
        = [(⟨1, 0, true, true, [10]⟩ : Drv Nat), (⟨2, 0, false, true, [20]⟩ : Drv Nat)] :=
  ⟨by decide, queryDriverProperties_preserves_state _ (by decide)⟩
lemma runMin_acc_some (f : β → ℚ) :
    ∀ (l : List β) (b : β), ∃ r, runMin f (some b) l = some r := by
  intro l
  induction l with
  | nil => intro b; exact ⟨b, rfl⟩
  | cons x xs ih =>
    intro b
    have hstep : runMin f (some b) (x :: xs)
        = runMin f (if f x < f b then some x else some b) xs := rfl
    by_cases hlt : f x < f b
    · rw [hstep, if_pos hlt]; exact ih x
    · rw [hstep, if_neg hlt]; exact ih b
lemma runMin_some_of_ne_nil (f : β → ℚ) (l : List β) (h : l ≠ []) :
    ∃ r, runMin f none l = some r := by
  cases l with
  | nil => exact absurd rfl h
  | cons x xs =>
    have hstep : runMin f none (x :: xs) = runMin f (some x) xs := rfl
    rw [hstep]
    exact runMin_acc_some f xs x
lemma runMin_spec (f : β → ℚ) :
    ∀ (l : List β) (acc : Option β) (r : β), runMin f acc l = some r →
      (acc = some r ∧ ∀ x ∈ l, f r ≤ f x) ∨
      (∃ l1 l2, l = l1 ++ r :: l2 ∧ (∀ x ∈ l1, f r < f x) ∧ (∀ x ∈ l2, f r ≤ f x) ∧
        ∀ b, acc = some b → f r < f b) := by
  intro l
  induction l with
  | nil =>
    intro acc r h
    left
    exact ⟨h, by simp⟩
  | cons x xs ih =>
    intro acc r h
    cases acc with
    | none =>
      have hstep : runMin f none (x :: xs) = runMin f (some x) xs := rfl
      rw [hstep] at h
      rcases ih (some x) r h with ⟨hx, hall⟩ | ⟨l1, l2, heq, h1, h2, hacc⟩
      · injection hx with hx
        right
        refine ⟨[], xs, by simp [hx], by simp, hall, ?_⟩
        intro b hb
        exact absurd hb (by simp)
      · right
        refine ⟨x :: l1, l2, by simp [heq], ?_, h2, ?_⟩
        · intro y hy
          rcases List.mem_cons.mp hy with rfl | hy
          · exact hacc y rfl
          · exact h1 y hy
        · intro b hb
          exact absurd hb (by simp)
    | some b =>
      have hstep : runMin f (some b) (x :: xs)
          = runMin f (if f x < f b then some x else some b) xs := rfl
      by_cases hlt : f x < f b
      · rw [hstep, if_pos hlt] at h
        rcases ih (some x) r h with ⟨hx, hall⟩ | ⟨l1, l2, heq, h1, h2, hacc⟩
        · injection hx with hx
          right
          refine ⟨[], xs, by simp [hx], by simp, hall, ?_⟩
          intro b0 hb0
          injection hb0 with hb0
          rw [← hb0, ← hx]
          exact hlt
        · have hrx : f r < f x := hacc x rfl
          right
          refine ⟨x :: l1, l2, by simp [heq], ?_, h2, ?_⟩
          · intro y hy
            rcases List.mem_cons.mp hy with rfl | hy
            · exact hrx
            · exact h1 y hy
          · intro b0 hb0
            injection hb0 with hb0
            rw [← hb0]
            exact lt_trans hrx hlt
      · rw [hstep, if_neg hlt] at h
        have hble : f b ≤ f x := le_of_not_lt hlt
        rcases ih (some b) r h with ⟨hb, hall⟩ | ⟨l1, l2, heq, h1, h2, hacc⟩
        · left
          refine ⟨hb, ?_⟩
          intro y hy
          rcases List.mem_cons.mp hy with rfl | hy
          · injection hb with hb
            rw [← hb]
            exact hble
          · exact hall y hy
        · have hrb : f r < f b := hacc b rfl
          right
          refine ⟨x :: l1, l2, by simp [heq], ?_, h2, ?_⟩
          · intro y hy
            rcases List.mem_cons.mp hy with rfl | hy
            · exact lt_of_lt_of_le hrb hble
            · exact h1 y hy
          · intro b0 hb0
            injection hb0 with hb0
            rw [← hb0]
            exact hrb
lemma foldl_selStep_eq (fitness : γ → α → Option ℚ) (c : γ) (d : Drv α) :
    ∀ (ps : List α) (acc : Option (Drv α × α × ℚ)),
      ps.foldl (selStep fitness c d) acc
        = runMin (fun x => x.2.2) acc
            (ps.filterMap (fun p => (fitness c p).map (fun fd => (d, p, fd - d.priority)))) := by
  intro ps
  induction ps with
  | nil => intro acc; rfl
  | cons p ps ih =>
    intro acc
    cases hf : fitness c p with
    | none =>
      have hsel : selStep fitness c d acc p = acc := by
        simp [selStep, hf]
      have hrw : List.filterMap
            (fun p => (fitness c p).map (fun fd => (d, p, fd - d.priority))) (p :: ps)
          = List.filterMap
            (fun p => (fitness c p).map (fun fd => (d, p, fd - d.priority))) ps := by
        simp [List.filterMap_cons, hf]
      rw [List.foldl_cons, hsel, hrw]
      exact ih acc
    | some fd =>
      have hrw : List.filterMap
            (fun p => (fitness c p).map (fun fd => (d, p, fd - d.priority))) (p :: ps)
          = (d, p, fd - d.priority) :: List.filterMap
            (fun p => (fitness c p).map (fun fd => (d, p, fd - d.priority))) ps := by
        simp [List.filterMap_cons, hf]
      rw [List.foldl_cons, hrw]
      cases acc with
      | none =>
        have hsel : selStep fitness c d none p = some (d, p, fd - d.priority) := by
          simp [selStep, hf]
        have hstep : runMin (fun x : Drv α × α × ℚ => x.2.2) none
              ((d, p, fd - d.priority) :: List.filterMap
                (fun p => (fitness c p).map (fun fd => (d, p, fd - d.priority))) ps)
            = runMin (fun x => x.2.2) (some (d, p, fd - d.priority))
              (List.filterMap
                (fun p => (fitness c p).map (fun fd => (d, p, fd - d.priority))) ps) := rfl
        rw [hsel, hstep]
        exact ih _
      | some b =>
        have hsel : selStep fitness c d (some b) p
            = if fd - d.priority < b.2.2 then some (d, p, fd - d.priority) else some b := by
          simp [selStep, hf]
        have hstep : runMin (fun x : Drv α × α × ℚ => x.2.2) (some b)
              ((d, p, fd - d.priority) :: List.filterMap
                (fun p => (fitness c p).map (fun fd => (d, p, fd - d.priority))) ps)
            = runMin (fun x => x.2.2)
              (if fd - d.priority < b.2.2 then some (d, p, fd - d.priority) else some b)
              (List.filterMap
                (fun p => (fitness c p).map (fun fd => (d, p, fd - d.priority))) ps) := rfl
        rw [hsel, hstep]
        exact ih _
lemma selectLoop_eq_runMin (fitness : γ → α → Option ℚ) (c : γ) :
    ∀ (entries : List (Drv α × List α)) (acc : Option (Drv α × α × ℚ)),
      entries.foldl (fun acc e => e.2.foldl (selStep fitness c e.1) acc) acc
        = runMin (fun x => x.2.2) acc (candidates fitness c entries) := by
  intro entries
  induction entries with
  | nil => intro acc; rfl
  | cons e es ih =>
    intro acc
    rw [List.foldl_cons, ih, foldl_selStep_eq]
    have hc : candidates fitness c (e :: es)
        = (e.2.filterMap (fun p => (fitness c p).map (fun fd => (e.1, p, fd - e.1.priority))))
          ++ candidates fitness c es := by
      simp [candidates]
    rw [hc]
    exact (List.foldl_append _ _ _ _).symm
/-- Claim C1: whenever at least one queried (driver, property) pair satisfies
all required constraint attributes (has a defined fitness distance), selection
succeeds and returns the pair whose effective score (distance minus driver
priority) is minimal over all eligible pairs, and on ties the
first-encountered pair wins: the winner scores strictly below every eligible
pair encountered before it, because the running-minimum comparison is strict
less-than. -/
theorem selectBestDriver_picks_first_minimal (fitness : γ → α → Option ℚ) (c : γ)
    (ds : List (Drv α))
    (hne : candidates fitness c (queryDriverProperties ds).1 ≠ []) :
    ∃ b l1 l2,
      selectBestDriver fitness c ds = Except.ok (b.1, b.2.1) ∧
      candidates fitness c (queryDriverProperties ds).1 = l1 ++ b :: l2 ∧
      (∀ x ∈ candidates fitness c (queryDriverProperties ds).1, b.2.2 ≤ x.2.2) ∧
      (∀ x ∈ l1, b.2.2 < x.2.2) := by
  obtain ⟨r, hr⟩ := runMin_some_of_ne_nil (fun x => x.2.2) _ hne
  have hloop : selectLoop fitness c (queryDriverProperties ds).1 = some r := by
    rw [selectLoop, selectLoop_eq_runMin]
    exact hr
  rcases runMin_spec (fun x => x.2.2) _ none r hr with ⟨habs, _⟩ | ⟨l1, l2, heq, h1, h2, _⟩
  · exact absurd habs (by simp)
  · refine ⟨r, l1, l2, ?_, heq, ?_, h1⟩
    · rw [selectBestDriver, hloop]
    · intro x hx
      rw [heq] at hx
      rcases List.mem_append.mp hx with hx | hx
      · exact le_of_lt (h1 x hx)
      · rcases List.mem_cons.mp hx with rfl | hx
        · exact le_refl _
        · exact h2 x hx
/-- Witness for C1: one open driver with one property whose fitness distance
is defined, so selection succeeds with that pair. -/
theorem selectBestDriver_picks_first_minimal_witness :
    candidates (fun (_ : Unit) (p : Nat) => if p = 10 then some (2 : ℚ) else none) ()
        (queryDriverProperties [(⟨1, 0, true, true, [10]⟩ : Drv Nat)]).1 ≠ [] ∧
      ∃ b l1 l2,
        selectBestDriver (fun (_ : Unit) (p : Nat) => if p = 10 then some (2 : ℚ) else none) ()
            [(⟨1, 0, true, true, [10]⟩ : Drv Nat)] = Except.ok (b.1, b.2.1) ∧
        candidates (fun (_ : Unit) (p : Nat) => if p = 10 then some (2 : ℚ) else none) ()
            (queryDriverProperties [(⟨1, 0, true, true, [10]⟩ : Drv Nat)]).1 = l1 ++ b :: l2 ∧
        (∀ x ∈ candidates (fun (_ : Unit) (p : Nat) => if p = 10 then some (2 : ℚ) else none) ()
            (queryDriverProperties [(⟨1, 0, true, true, [10]⟩ : Drv Nat)]).1, b.2.2 ≤ x.2.2) ∧
        (∀ x ∈ l1, b.2.2 < x.2.2) :=
  ⟨by decide, selectBestDriver_picks_first_minimal _ () _ (by decide)⟩
lemma candidates_nil_of_none (fitness : γ → α → Option ℚ) (c : γ)
    (entries : List (Drv α × List α))
    (h : ∀ e ∈ entries, ∀ p ∈ e.2, fitness c p = none) :
    candidates fitness c entries = [] := by
  induction entries with
  | nil => rfl
  | cons e es ih =>
    have h1 : ∀ p ∈ e.2, fitness c p = none := h e (by simp)
    have h2 := ih (fun x hx => h x (by simp [hx]))
    simp only [candidates, List.flatMap_cons] at h2 ⊢
    rw [h2, List.append_nil]
    rw [List.filterMap_eq_nil_iff]
    intro p hp
    simp [h1 p hp]
/-- Claim C8: when no queried (driver, property) pair satisfies the required
constraint attributes, selection fails with the NotFound error, and that error
carries every property discovered from every successfully queried driver
together with the original constraint set. -/
theorem selectBestDriver_notFound_reports_all (fitness : γ → α → Option ℚ) (c : γ)
    (ds : List (Drv α))
    (hnone : ∀ e ∈ (queryDriverProperties ds).1, ∀ p ∈ e.2, fitness c p = none) :
    selectBestDriver fitness c ds
        = Except.error (foundProperties (queryDriverProperties ds).1, c) ∧
      ∀ e ∈ (queryDriverProperties ds).1, ∀ p ∈ e.2,
        p ∈ foundProperties (queryDriverProperties ds).1 := by
  constructor
  · have hcand := candidates_nil_of_none fitness c _ hnone
    have hloop : selectLoop fitness c (queryDriverProperties ds).1 = none := by
      rw [selectLoop, selectLoop_eq_runMin, hcand]
      rfl
    rw [selectBestDriver, hloop]
  · intro e he p hp
    exact List.mem_flatMap.mpr ⟨e, he, hp⟩
/-- Witness for C8: one driver whose single property satisfies no required
constraint; the error lists that property and the constraint set. -/
theorem selectBestDriver_notFound_reports_all_witness :
    (∀ e ∈ (queryDriverProperties [(⟨1, 0, true, true, [10]⟩ : Drv Nat)]).1, ∀ p ∈ e.2,
        (fun (_ : Unit) (_ : Nat) => (none : Option ℚ)) () p = none) ∧
      selectBestDriver (fun (_ : Unit) (_ : Nat) => (none : Option ℚ)) ()
          [(⟨1, 0, true, true, [10]⟩ : Drv Nat)]
        = Except.error (foundProperties
            (queryDriverProperties [(⟨1, 0, true, true, [10]⟩ : Drv Nat)]).1, ()) ∧
      ∀ e ∈ (queryDriverProperties [(⟨1, 0, true, true, [10]⟩ : Drv Nat)]).1, ∀ p ∈ e.2,
        p ∈ foundProperties (queryDriverProperties [(⟨1, 0, true, true, [10]⟩ : Drv Nat)]).1 :=
  ⟨by decide, selectBestDriver_notFound_reports_all _ () _ (by decide)⟩
lemma drainLoop_benign_append (pre : List (RStep E)) :
    ∀ (b : Nat) (st : TState E H) (rest : List (RStep E)),
      (∀ s ∈ pre, benign s = true) →
      ∃ b2, drainLoop b st (pre ++ rest) = drainLoop b2 st rest := by
  induction pre with
  | nil => intro b st rest _; exact ⟨b, rfl⟩
  | cons s pre ih =>
    intro b st rest hpre
    cases s with
    | ok n se =>
      cases se with
      | none =>
        have : drainLoop b st ((RStep.ok n none :: pre) ++ rest)
            = drainLoop b st (pre ++ rest) := rfl
        rw [this]
        exact ih b st rest (fun x hx => hpre x (by simp [hx]))
      | some e =>
        have := hpre (RStep.ok n (some e)) (by simp)
        simp [benign] at this
    | tooSmall q =>
      have : drainLoop b st ((RStep.tooSmall q :: pre) ++ rest)
          = drainLoop (2 * q) st (pre ++ rest) := rfl
      rw [this]
      exact ih (2 * q) st rest (fun x hx => hpre x (by simp [hx]))
    | fail e =>
      have := hpre (RStep.fail e) (by simp)
      simp [benign] at this
/-- Claim C7: after any benign prefix, a read failing with the recoverable
buffer-too-small error carrying required size r makes the loop retry with a
fresh buffer of length 2 * r ≥ r, continuing into the remaining script with
the track state untouched (no error latched); whereas any other read error, or
a sample/sink error on a successful read, is forwarded to the track's error
latch via onError and terminates the loop, ignoring the rest of the script. -/
theorem drainLoop_retries_recoverable_latches_fatal (pre post : List (RStep E))
    (b r n : Nat) (e : E) (st : TState E H)
    (hpre : ∀ s ∈ pre, benign s = true) :
    (drainLoop b st (pre ++ RStep.tooSmall r :: post) = drainLoop (2 * r) st post
        ∧ r ≤ 2 * r) ∧
      (drainLoop b st (pre ++ RStep.fail e :: post)).2 = onError st e ∧
      (drainLoop b st (pre ++ RStep.ok n (some e) :: post)).2 = onError st e := by
  obtain ⟨b1, h1⟩ := drainLoop_benign_append pre b st (RStep.tooSmall r :: post) hpre
  obtain ⟨b2, h2⟩ := drainLoop_benign_append pre b st (RStep.fail e :: post) hpre
  obtain ⟨b3, h3⟩ := drainLoop_benign_append pre b st (RStep.ok n (some e) :: post) hpre
  refine ⟨⟨?_, by omega⟩, ?_, ?_⟩
  · rw [h1]; rfl
  · rw [h2]; rfl
  · rw [h3]; rfl
/-- Witness for C7: a benign prefix of one successful read, then each of the
three junction outcomes at concrete values. -/
theorem drainLoop_retries_recoverable_latches_fatal_witness :
    ((drainLoop 1024 (initTrack Nat Nat) ([RStep.ok 5 none] ++ RStep.tooSmall 3 :: [RStep.ok 4 none])
          = drainLoop (2 * 3) (initTrack Nat Nat) [RStep.ok 4 none] ∧ 3 ≤ 2 * 3) ∧
        (drainLoop 1024 (initTrack Nat Nat) ([RStep.ok 5 none] ++ RStep.fail 9 :: [RStep.ok 4 none])).2
          = onError (initTrack Nat Nat) 9 ∧
        (drainLoop 1024 (initTrack Nat Nat) ([RStep.ok 5 none] ++ RStep.ok 6 (some 9) :: [RStep.ok 4 none])).2
          = onError (initTrack Nat Nat) 9) :=
  drainLoop_retries_recoverable_latches_fatal [RStep.ok 5 none] [RStep.ok 4 none]
    1024 3 6 9 (initTrack Nat Nat) (by decide)
/-- Claim C10: whenever GetUserMedia or GetDisplayMedia returns an error,
every track created earlier within that same call has been closed before the
error is returned: the closed list equals the created list. -/
theorem getMedia_error_closes_created (env : GumEnv T S Err) :
    (∀ e, (GetUserMedia env).result = Except.error e →
        (GetUserMedia env).closed = (GetUserMedia env).created) ∧
      (∀ e, (GetDisplayMedia env).result = Except.error e →
        (GetDisplayMedia env).closed = (GetDisplayMedia env).created) := by
  obtain ⟨ve, ae, vr, ar, sr⟩ := env
  constructor
  · intro e
    cases ve with
    | false =>
      cases ae with
      | false =>
        simp only [GetUserMedia]
        cases hs : sr [] <;> simp
      | true =>
        cases ar with
        | error ea => simp [GetUserMedia]
        | ok ta =>
          simp only [GetUserMedia]
          cases hs : sr [ta] <;> simp
    | true =>
      cases vr with
      | error ev => simp [GetUserMedia]
      | ok tv =>
        cases ae with
        | false =>
          simp only [GetUserMedia]
          cases hs : sr [tv] <;> simp
        | true =>
          cases ar with
          | error ea => simp [GetUserMedia]
          | ok ta =>
            simp only [GetUserMedia]
            cases hs : sr [tv, ta] <;> simp
  · intro e
    cases ve with
    | false =>
      simp only [GetDisplayMedia]
      cases hs : sr [] <;> simp
    | true =>
      cases vr with
      | error ev => simp [GetDisplayMedia]
      | ok tv =>
        simp only [GetDisplayMedia]
        cases hs : sr [tv] <;> simp
/-- Witness for C10: video selection succeeds, audio selection fails, so
GetUserMedia fails after creating one track and closes it; GetDisplayMedia
fails in stream construction after creating one track and closes it. -/
theorem getMedia_error_closes_created_witness :
    (GetUserMedia (⟨true, true, Except.ok 1, Except.error 7, fun _ => Except.error 9⟩ :
          GumEnv Nat Nat Nat)).result = Except.error 7 ∧
      (GetUserMedia (⟨true, true, Except.ok 1, Except.error 7, fun _ => Except.error 9⟩ :
          GumEnv Nat Nat Nat)).closed
        = (GetUserMedia (⟨true, true, Except.ok 1, Except.error 7, fun _ => Except.error 9⟩ :
          GumEnv Nat Nat Nat)).created ∧
      (GetDisplayMedia (⟨true, true, Except.ok 1, Except.error 7, fun _ => Except.error 9⟩ :
          GumEnv Nat Nat Nat)).result = Except.error 9 ∧
      (GetDisplayMedia (⟨true, true, Except.ok 1, Except.error 7, fun _ => Except.error 9⟩ :
          GumEnv Nat Nat Nat)).closed
        = (GetDisplayMedia (⟨true, true, Except.ok 1, Except.error 7, fun _ => Except.error 9⟩ :
          GumEnv Nat Nat Nat)).created :=
  ⟨rfl,
    (getMedia_error_closes_created _).1 7 rfl,
    rfl,
    (getMedia_error_closes_created _).2 9 rfl⟩

end MediaDevices
